import Mathlib

/-!
Shallow embedding of the minesweeper game engine of `src/logic.py`
(class `Minesweeper`, plus the `Difficulty` value object of
`src/difficulty.py`), together with theorems checking the
natural-language specification against it.

Python mutable state is modelled by explicit state passing: every
mutating method returns the new engine value.  The rows-by-cols list of
`Tile` objects is modelled as a total function from coordinates to
`Tile` (all accesses the program performs are in bounds).  Exceptions
are modelled with `Except`:
  `Err.invalidState`     models `ValueError('cant change state after game ended')`
  `Err.invalidOperation` models `ValueError('cant flag revealed tile')`
  `Err.outOfBounds`      models the `IndexError` Python list indexing raises
  `Err.config`           models the `ValueError` raised by `random.sample`
Python list indexing `self._grid[row][col]` accepts negative indices by
wrapping from the end; `pyIndex` reproduces that.
-/

namespace Mines

structure Tile where
  row : Nat
  col : Nat
  bombsInNeighbor : Nat
  isBomb : Bool
  isFlagged : Bool
  isRevealed : Bool
deriving DecidableEq, Repr

inductive State where
  | ONGOING
  | WIN
  | LOSE
deriving DecidableEq, Repr

inductive Err where
  | invalidState
  | invalidOperation
  | outOfBounds
  | config
deriving DecidableEq, Repr

/-- The `Difficulty` value object of `src/difficulty.py`: `rows`, `cols`,
`bombs`.  `bombs` is a Python `int`, so it is modelled as `Int`. -/
structure Difficulty where
  rows : Nat
  cols : Nat
  bombs : Int
deriving DecidableEq, Repr

/-- The rows-by-cols grid of tiles, as a total function on coordinates. -/
abbrev Grid := Nat → Nat → Tile

/-- Writing one cell of the grid (the effect of mutating one `Tile`). -/
def setTile (g : Grid) (r c : Nat) (t : Tile) : Grid :=
  fun i j => if i = r ∧ j = c then t else g i j

/-- Python list indexing semantics: `xs[i]` for `0 ≤ i < len` is `xs[i]`,
for `-len ≤ i < 0` it wraps to `xs[len + i]`, otherwise `IndexError`. -/
def pyIndex (len : Nat) (i : Int) : Option Nat :=
  if 0 ≤ i then (if i < (len : Int) then some i.toNat else none)
  else (if 0 ≤ i + (len : Int) then some (i + (len : Int)).toNat else none)

/-- `Minesweeper._getNeighborsPosition`: the in-bounds neighbors of
`(row, col)` in the order `itertools.product` yields them, skipping the
center cell. -/
def getNeighborsPosition (rows cols : Nat) (row col : Nat) : List (Nat × Nat) :=
  ((([(row : Int) - 1, (row : Int), (row : Int) + 1].product
      [(col : Int) - 1, (col : Int), (col : Int) + 1]).filter
    (fun p => !((row : Int) == p.1 && (col : Int) == p.2) &&
      (decide (p.1 < (rows : Int)) && decide (0 ≤ p.1)) &&
      (decide (p.2 < (cols : Int)) && decide (0 ≤ p.2)))).map
    (fun p => (p.1.toNat, p.2.toNat)))

/-- A fresh tile, as built by `Minesweeper._generateGrid`'s comprehension. -/
def initTile (r c : Nat) : Tile :=
  { row := r, col := c, bombsInNeighbor := 0, isBomb := false,
    isFlagged := false, isRevealed := false }

/-- `grid[nrow][ncol].bombsInNeighbor += 1`. -/
def incNeighbor (g : Grid) (q : Nat × Nat) : Grid :=
  setTile g q.1 q.2
    { g q.1 q.2 with bombsInNeighbor := (g q.1 q.2).bombsInNeighbor + 1 }

/-- The body of the `for row, col in self._bombs` loop of
`Minesweeper._generateGrid`: mark the bomb and bump every in-bounds
neighbor's count. -/
def placeBomb (rows cols : Nat) (g : Grid) (b : Nat × Nat) : Grid :=
  let g1 := setTile g b.1 b.2 { g b.1 b.2 with isBomb := true }
  (getNeighborsPosition rows cols b.1 b.2).foldl incNeighbor g1

/-- `Minesweeper._generateGrid`, with the iteration order of the bomb set
made explicit as a list. -/
def generateGrid (rows cols : Nat) (bombs : List (Nat × Nat)) : Grid :=
  bombs.foldl (placeBomb rows cols) (fun r c => initTile r c)

/-- The engine state owned by a `Minesweeper` instance: dimensions and
bomb count of the difficulty, the generated bomb set (as the list
`Minesweeper._generateGrid` iterates over), the running flag counter,
the game state and the grid. -/
structure Game where
  rows : Nat
  cols : Nat
  nbombs : Int
  bombs : List (Nat × Nat)
  flags : Int
  state : State
  grid : Grid

/-- Success condition of `random.sample(population, k)` as used by
`Minesweeper._generateBombs`: CPython raises `ValueError` unless
`0 ≤ k ≤ len(population)`, and the population is the full
rows-times-cols coordinate product. -/
def sampleOk (d : Difficulty) : Prop :=
  0 ≤ d.bombs ∧ d.bombs ≤ ((d.rows * d.cols : Nat) : Int)

instance (d : Difficulty) : Decidable (sampleOk d) := by
  unfold sampleOk; infer_instance

/-- The outcome of `random.sample`, when it succeeds: `bs` is a list of
distinct in-bounds coordinates of length `d.bombs`.  The sample itself is
random; theorems quantify over every list satisfying this. -/
def validSample (d : Difficulty) (bs : List (Nat × Nat)) : Prop :=
  bs.Nodup ∧ (∀ p ∈ bs, p.1 < d.rows ∧ p.2 < d.cols) ∧
    (bs.length : Int) = d.bombs

instance (d : Difficulty) (bs : List (Nat × Nat)) :
    Decidable (validSample d bs) := by
  unfold validSample; infer_instance

/-- `Minesweeper.__init__`, with the randomness of `random.sample`
supplied as the parameter `bs` (the drawn bomb list): fails exactly when
`random.sample` would raise, otherwise builds the grid and starts in
`ONGOING` with zero flags. -/
def mkGame (d : Difficulty) (bs : List (Nat × Nat)) : Except Err Game :=
  if sampleOk d then
    Except.ok ({
      rows := d.rows, cols := d.cols, nbombs := d.bombs, bombs := bs,
      flags := 0, state := State.ONGOING,
      grid := generateGrid d.rows d.cols bs })
  else Except.error Err.config

/-- `Minesweeper._checkIfAllBombsAreFlagged`. -/
def checkIfAllBombsAreFlagged (g : Game) : Bool :=
  g.bombs.all fun p => (g.grid p.1 p.2).isFlagged

/-- `Minesweeper.toggleFlag`. -/
def toggleFlag (g : Game) (row col : Int) : Except Err (Bool × Game) :=
  if g.state ≠ State.ONGOING then Except.error Err.invalidState
  else
    match pyIndex g.rows row, pyIndex g.cols col with
    | some r, some c =>
      let tile := g.grid r c
      if tile.isRevealed then Except.error Err.invalidOperation
      else
        let newFlag := !tile.isFlagged
        let g1 : Game := { g with
          grid := setTile g.grid r c ({ tile with isFlagged := newFlag }),
          flags := g.flags + (if newFlag then 1 else -1) }
        let g2 : Game :=
          if newFlag && (decide (g1.flags = g.nbombs) && checkIfAllBombsAreFlagged g1)
          then { g1 with state := State.WIN } else g1
        Except.ok (newFlag, g2)
    | _, _ => Except.error Err.outOfBounds

/-- One pass of the `for nrow, ncol in self._getNeighborsPosition(row, col)`
loop body inside `Minesweeper.reveal`'s flood fill, over the whole
neighbor list `ps`: skip bombs, flagged and revealed tiles; enqueue blank
tiles; mark the rest revealed and append them to the changed list. -/
def processAll : List (Nat × Nat) → Grid → List (Nat × Nat) → List Tile →
    Grid × List (Nat × Nat) × List Tile
  | [], grid, queue, changed => (grid, queue, changed)
  | p :: ps, grid, queue, changed =>
    let ntile := grid p.1 p.2
    if ntile.isBomb || ntile.isFlagged || ntile.isRevealed then
      processAll ps grid queue changed
    else
      processAll ps (setTile grid p.1 p.2 ({ ntile with isRevealed := true }))
        (if ntile.bombsInNeighbor == 0 then queue ++ [(ntile.row, ntile.col)]
          else queue)
        (changed ++ [{ ntile with isRevealed := true }])

/-- The `while len(queue) != 0` loop of `Minesweeper.reveal`, with an
explicit fuel bound on the number of iterations.  Each iteration strictly
decreases `queue.length + number of unrevealed in-bounds tiles`, so the
fuel `reveal` supplies is never exhausted (proved below). -/
def bfsFuel (rows cols : Nat) : Nat → Grid → List (Nat × Nat) → List Tile →
    Grid × List Tile
  | _, grid, [], changed => (grid, changed)
  | 0, grid, _ :: _, changed => (grid, changed)
  | fuel + 1, grid, pos :: rest, changed =>
    let r := processAll (getNeighborsPosition rows cols pos.1 pos.2) grid rest changed
    bfsFuel rows cols fuel r.1 r.2.1 r.2.2

/-- `Minesweeper.reveal`. -/
def reveal (g : Game) (row col : Int) : Except Err (List Tile × Game) :=
  if g.state ≠ State.ONGOING then Except.error Err.invalidState
  else
    match pyIndex g.rows row, pyIndex g.cols col with
    | some r, some c =>
      let tile := g.grid r c
      if tile.isBomb then Except.ok ([], { g with state := State.LOSE })
      else if tile.isRevealed then Except.ok ([], g)
      else
        let tile1 : Tile := { tile with isRevealed := true }
        let grid1 := setTile g.grid r c tile1
        if tile.bombsInNeighbor ≠ 0 then Except.ok ([tile1], { g with grid := grid1 })
        else
          let r := bfsFuel g.rows g.cols (g.rows * g.cols + 1) grid1
            [(tile.row, tile.col)] [tile1]
          Except.ok (r.2, { g with grid := r.1 })
    | _, _ => Except.error Err.outOfBounds

/-- In-bounds coordinates. -/
def inb (rows cols : Nat) (p : Nat × Nat) : Prop :=
  p.1 < rows ∧ p.2 < cols

instance (rows cols : Nat) (p : Nat × Nat) : Decidable (inb rows cols p) := by
  unfold inb; infer_instance

/-- Every tile of the grid records its own coordinates (established by
`generateGrid` and preserved by every mutation the engine performs). -/
def coherent (rows cols : Nat) (g : Grid) : Prop :=
  ∀ p : Nat × Nat, inb rows cols p →
    (g p.1 p.2).row = p.1 ∧ (g p.1 p.2).col = p.2

/-- A tile the flood fill may reveal: not a bomb, not flagged, not
already revealed. -/
def openable (g : Grid) (p : Nat × Nat) : Prop :=
  (g p.1 p.2).isBomb = false ∧ (g p.1 p.2).isFlagged = false ∧
    (g p.1 p.2).isRevealed = false

/-- One expansion step of the region the specification describes: from a
blank tile `p` to an in-bounds neighbor `q` that is neither a bomb, nor
flagged, nor already revealed (all judged in the pre-call grid `g`). -/
def floodStep (rows cols : Nat) (g : Grid) (p q : Nat × Nat) : Prop :=
  (g p.1 p.2).bombsInNeighbor = 0 ∧
    q ∈ getNeighborsPosition rows cols p.1 p.2 ∧ openable g q

/-- The connected region the specification describes: reflexive-transitive
closure of `floodStep` from the clicked tile. -/
def Reaches (rows cols : Nat) (g : Grid) (start p : Nat × Nat) : Prop :=
  Relation.ReflTransGen (floodStep rows cols g) start p

/-- Number of in-bounds unrevealed tiles, the flood fill's termination
measure together with the queue length. -/
def unrevealedCount (rows cols : Nat) (g : Grid) : Nat :=
  ((Finset.range rows ×ˢ Finset.range cols).filter
    (fun p => (g p.1 p.2).isRevealed = false)).card

/-- A newly revealed coordinate: revealed now, unrevealed before the call. -/
def newly (g0 g : Grid) (p : Nat × Nat) : Prop :=
  (g p.1 p.2).isRevealed = true ∧ (g0 p.1 p.2).isRevealed = false

/-- The only mutation the flood fill performs on a tile is setting
`isRevealed` to true. -/
def revOnly (t u : Tile) : Prop :=
  u = t ∨ u = { t with isRevealed := true }

/-- Loop invariant of the flood fill, relating the current grid, queue
and changed list to the pre-call grid `g0` and the clicked tile `start`:
the grid differs from `g0` only by revealing tiles; every newly revealed
tile lies in the region described by `Reaches`; the clicked tile is
newly revealed; queued tiles are in-bounds, newly revealed and blank;
every newly revealed blank tile not waiting in the queue has all its
openable neighbors revealed already; and the changed list holds exactly
the newly revealed tiles, each once, with their updated values. -/
structure Inv (rows cols : Nat) (g0 : Grid) (start : Nat × Nat)
    (grid : Grid) (queue : List (Nat × Nat)) (changed : List Tile) : Prop where
  frame : ∀ p : Nat × Nat, revOnly (g0 p.1 p.2) (grid p.1 p.2)
  sound : ∀ p : Nat × Nat, newly g0 grid p → Reaches rows cols g0 start p
  startNew : newly g0 grid start
  queueInb : ∀ q ∈ queue, inb rows cols q
  queueNew : ∀ q ∈ queue, newly g0 grid q
  queueBlank : ∀ q ∈ queue, (g0 q.1 q.2).bombsInNeighbor = 0
  closure : ∀ p : Nat × Nat, newly g0 grid p →
    (g0 p.1 p.2).bombsInNeighbor = 0 → p ∉ queue →
    ∀ q ∈ getNeighborsPosition rows cols p.1 p.2, openable g0 q →
      (grid q.1 q.2).isRevealed = true
  changedVal : ∀ t ∈ changed, inb rows cols (t.row, t.col) ∧
    t = { g0 t.row t.col with isRevealed := true }
  changedMem : ∀ p : Nat × Nat, inb rows cols p →
    ((∃ t ∈ changed, t.row = p.1 ∧ t.col = p.2) ↔ newly g0 grid p)
  changedNodup : (changed.map fun t => (t.row, t.col)).Nodup

/-- Concrete 3-by-3 game with one bomb at the center, used to evaluate
theorems on a closed instance. -/
def game33 : Game :=
  { rows := 3, cols := 3, nbombs := 1, bombs := [(1, 1)], flags := 0,
    state := State.ONGOING, grid := generateGrid 3 3 [(1, 1)] }

/-- Concrete 4-by-4 game with one bomb in the corner, so that tiles far
from the corner are blank and the flood fill has work to do. -/
def game44 : Game :=
  { rows := 4, cols := 4, nbombs := 1, bombs := [(0, 0)], flags := 0,
    state := State.ONGOING, grid := generateGrid 4 4 [(0, 0)] }

/-- The 3-by-3 game after a lost reveal, used to evaluate the terminal
state behavior on a closed instance. -/
def gameLost : Game :=
  { rows := 3, cols := 3, nbombs := 1, bombs := [(1, 1)], flags := 0,
    state := State.LOSE, grid := generateGrid 3 3 [(1, 1)] }

/-- The 3-by-3 game with a user flag placed on the corner tile (0,0). -/
def game33f : Game :=
  { rows := 3, cols := 3, nbombs := 1, bombs := [(1, 1)], flags := 1,
    state := State.ONGOING,
    grid := setTile (generateGrid 3 3 [(1, 1)]) 0 0
      ({ generateGrid 3 3 [(1, 1)] 0 0 with isFlagged := true }) }

end Mines

namespace Mines

theorem setTile_apply (g : Grid) (r c : Nat) (t : Tile) (i j : Nat) :
    setTile g r c t i j = if i = r ∧ j = c then t else g i j := rfl

theorem setTile_same (g : Grid) (r c : Nat) (t : Tile) :
    setTile g r c t r c = t := by simp [setTile]

theorem pyIndex_lt {n : Nat} {i : Int} {k : Nat} (h : pyIndex n i = some k) :
    k < n := by
  unfold pyIndex at h
  split at h
  · split at h
    · injection h with h; omega
    · exact absurd h (by simp)
  · split at h
    · injection h with h; omega
    · exact absurd h (by simp)

theorem pyIndex_natCast {n k : Nat} (h : k < n) :
    pyIndex n (k : Int) = some k := by
  unfold pyIndex
  rw [if_pos (by omega), if_pos (by omega)]
  simp

/-- Membership in the neighbor list: exactly the in-bounds coordinates at
Chebyshev distance one from the center. -/
theorem mem_getNeighborsPosition {rows cols r c : Nat} {q : Nat × Nat} :
    q ∈ getNeighborsPosition rows cols r c ↔
      q.1 < rows ∧ q.2 < cols ∧ ¬(q.1 = r ∧ q.2 = c) ∧
      (q.1 + 1 = r ∨ q.1 = r ∨ q.1 = r + 1) ∧
      (q.2 + 1 = c ∨ q.2 = c ∨ q.2 = c + 1) := by
  unfold getNeighborsPosition
  rw [List.mem_map]
  constructor
  · rintro ⟨⟨a, b⟩, hmem, rfl⟩
    rw [List.mem_filter] at hmem
    obtain ⟨hprod, hcond⟩ := hmem
    rw [List.pair_mem_product] at hprod
    obtain ⟨ha, hb⟩ := hprod
    simp only [List.mem_cons, List.mem_singleton, List.not_mem_nil,
      or_false] at ha hb
    simp only [Bool.and_eq_true, Bool.not_eq_true', Bool.and_eq_false_iff,
      beq_eq_false_iff_ne, ne_eq, decide_eq_true_eq] at hcond
    obtain ⟨⟨hne, hra, hrb⟩, hca, hcb⟩ := hcond
    dsimp only
    omega
  · rintro ⟨hq1, hq2, hne, hr, hc⟩
    refine ⟨((q.1 : Int), (q.2 : Int)), ?_, ?_⟩
    · rw [List.mem_filter]
      constructor
      · rw [List.pair_mem_product]
        simp only [List.mem_cons, List.mem_singleton, List.not_mem_nil,
          or_false]
        omega
      · simp only [Bool.and_eq_true, Bool.not_eq_true', Bool.and_eq_false_iff,
          beq_eq_false_iff_ne, ne_eq, decide_eq_true_eq]
        omega
    · simp

end Mines

namespace Mines

theorem inb_of_mem_getNeighborsPosition {rows cols r c : Nat} {q : Nat × Nat}
    (h : q ∈ getNeighborsPosition rows cols r c) : inb rows cols q := by
  rw [mem_getNeighborsPosition] at h
  exact ⟨h.1, h.2.1⟩

theorem self_not_mem_getNeighborsPosition {rows cols r c : Nat} :
    (r, c) ∉ getNeighborsPosition rows cols r c := by
  rw [mem_getNeighborsPosition]
  dsimp only
  omega

theorem getNeighborsPosition_comm {rows cols : Nat} {p q : Nat × Nat}
    (hp : inb rows cols p) (hq : inb rows cols q) :
    q ∈ getNeighborsPosition rows cols p.1 p.2 ↔
      p ∈ getNeighborsPosition rows cols q.1 q.2 := by
  obtain ⟨hp1, hp2⟩ := hp
  obtain ⟨hq1, hq2⟩ := hq
  simp only [mem_getNeighborsPosition]
  omega

theorem getNeighborsPosition_nodup (rows cols r c : Nat) :
    (getNeighborsPosition rows cols r c).Nodup := by
  unfold getNeighborsPosition
  apply List.Nodup.map_on
  · intro x hx y hy hxy
    rw [List.mem_filter] at hx hy
    have hx2 := hx.2
    have hy2 := hy.2
    simp only [Bool.and_eq_true, decide_eq_true_eq] at hx2 hy2
    have h1 : x.1.toNat = y.1.toNat ∧ x.2.toNat = y.2.toNat := by
      rw [Prod.mk.injEq] at hxy
      exact hxy
    rw [Prod.ext_iff]
    omega
  · apply List.Nodup.filter
    apply List.Nodup.product
    · refine List.nodup_cons.mpr ⟨?_, List.nodup_cons.mpr ⟨?_, ?_⟩⟩
      · simp only [List.mem_cons, List.mem_singleton, List.not_mem_nil,
          or_false, not_or]
        omega
      · simp only [List.mem_singleton, List.not_mem_nil, or_false]
        omega
      · simp
    · refine List.nodup_cons.mpr ⟨?_, List.nodup_cons.mpr ⟨?_, ?_⟩⟩
      · simp only [List.mem_cons, List.mem_singleton, List.not_mem_nil,
          or_false, not_or]
        omega
      · simp only [List.mem_singleton, List.not_mem_nil, or_false]
        omega
      · simp

theorem incNeighbor_apply (g : Grid) (q : Nat × Nat) (i j : Nat) :
    incNeighbor g q i j =
      if i = q.1 ∧ j = q.2 then
        { g i j with bombsInNeighbor := (g i j).bombsInNeighbor + 1 }
      else g i j := by
  unfold incNeighbor
  rw [setTile_apply]
  split
  · rename_i h
    rw [h.1, h.2]
  · rfl

/-- Occurrence count of one element in a duplicate-free list. -/
theorem countP_eq_mem {α : Type} [DecidableEq α] {l : List α} (h : l.Nodup)
    (a : α) :
    l.countP (fun x => decide (x = a)) = if a ∈ l then 1 else 0 := by
  induction l with
  | nil => simp
  | cons b l ih =>
    rw [List.nodup_cons] at h
    rw [List.countP_cons]
    by_cases hba : b = a
    · subst hba
      have h0 : l.countP (fun x => decide (x = b)) = 0 := by
        rw [List.countP_eq_zero]
        intro x hx
        simp only [decide_eq_true_eq]
        rintro rfl
        exact h.1 hx
      simp [h0]
    · have hmem : a ∈ b :: l ↔ a ∈ l := by
        simp only [List.mem_cons]
        constructor
        · rintro (rfl | hm)
          · exact absurd rfl hba
          · exact hm
        · exact Or.inr
      rw [ih h.2]
      simp [hba, hmem]

theorem foldl_incNeighbor_apply (ps : List (Nat × Nat)) (g : Grid) (i j : Nat) :
    (ps.foldl incNeighbor g) i j =
      ⟨(g i j).row, (g i j).col,
        (g i j).bombsInNeighbor + ps.countP (fun x => decide (x = (i, j))),
        (g i j).isBomb, (g i j).isFlagged, (g i j).isRevealed⟩ := by
  induction ps generalizing g with
  | nil =>
    simp only [List.foldl_nil, List.countP_nil, Nat.add_zero]
  | cons q ps ih =>
    rw [List.foldl_cons, ih, incNeighbor_apply, List.countP_cons]
    split
    · rename_i h
      obtain ⟨h1, h2⟩ := h
      subst h1; subst h2
      simp only [Tile.mk.injEq, true_and, and_true]
      rw [if_pos (by simp)]
      omega
    · rename_i h
      have hne : decide (q = (i, j)) = false := by
        simp only [decide_eq_false_iff_not]
        rintro rfl
        exact h ⟨rfl, rfl⟩
      simp only [Tile.mk.injEq, true_and, and_true]
      rw [hne]
      simp

theorem placeBomb_apply (rows cols : Nat) (g : Grid) (b : Nat × Nat) (i j : Nat) :
    placeBomb rows cols g b i j =
      ⟨(g i j).row, (g i j).col,
        (g i j).bombsInNeighbor +
          (if (i, j) ∈ getNeighborsPosition rows cols b.1 b.2 then 1 else 0),
        (g i j).isBomb || decide ((i, j) = b),
        (g i j).isFlagged, (g i j).isRevealed⟩ := by
  unfold placeBomb
  rw [foldl_incNeighbor_apply]
  rw [countP_eq_mem (getNeighborsPosition_nodup rows cols b.1 b.2)]
  rw [setTile_apply]
  by_cases hb : i = b.1 ∧ j = b.2
  · rw [if_pos hb]
    obtain ⟨h1, h2⟩ := hb
    subst h1; subst h2
    have hns : (b.1, b.2) ∉ getNeighborsPosition rows cols b.1 b.2 :=
      self_not_mem_getNeighborsPosition
    simp [Tile.mk.injEq, hns]
  · rw [if_neg hb]
    have hdec : decide ((i, j) = b) = false := by
      simp only [decide_eq_false_iff_not]
      rintro rfl
      exact hb ⟨rfl, rfl⟩
    rw [hdec, Bool.or_false]
    simp

theorem foldl_placeBomb_apply (rows cols : Nat) (bs : List (Nat × Nat))
    (g : Grid) (i j : Nat) :
    (bs.foldl (placeBomb rows cols) g) i j =
      ⟨(g i j).row, (g i j).col,
        (g i j).bombsInNeighbor + bs.countP
          (fun b => decide ((i, j) ∈ getNeighborsPosition rows cols b.1 b.2)),
        (g i j).isBomb || decide ((i, j) ∈ bs),
        (g i j).isFlagged, (g i j).isRevealed⟩ := by
  induction bs generalizing g with
  | nil =>
    simp only [List.foldl_nil, List.countP_nil, Nat.add_zero, List.not_mem_nil,
      decide_False, Bool.or_false]
  | cons b bs ih =>
    rw [List.foldl_cons, ih, placeBomb_apply, List.countP_cons]
    simp only [Tile.mk.injEq, true_and, and_true]
    constructor
    · simp only [decide_eq_true_eq]
      split <;> omega
    · by_cases hb : (i, j) = b
      · subst hb
        simp
      · simp only [List.mem_cons]
        have h1 : decide ((i, j) = b) = false := by
          simpa using hb
        rw [h1, Bool.or_false]
        by_cases h2 : (i, j) ∈ bs <;> simp [h2, hb]

theorem generateGrid_apply (rows cols : Nat) (bs : List (Nat × Nat)) (i j : Nat) :
    generateGrid rows cols bs i j =
      ⟨i, j,
        bs.countP (fun b => decide ((i, j) ∈ getNeighborsPosition rows cols b.1 b.2)),
        decide ((i, j) ∈ bs), false, false⟩ := by
  unfold generateGrid
  rw [foldl_placeBomb_apply]
  simp [initTile]

theorem coherent_generateGrid (rows cols : Nat) (bs : List (Nat × Nat)) :
    coherent rows cols (generateGrid rows cols bs) := by
  intro p _
  rw [generateGrid_apply]
  exact ⟨rfl, rfl⟩

/-- Counting common members of two duplicate-free lists is symmetric. -/
theorem length_filter_mem_comm {α : Type} [DecidableEq α] {l1 l2 : List α}
    [DecidablePred (fun a => a ∈ l1)] [DecidablePred (fun a => a ∈ l2)]
    (h1 : l1.Nodup) (h2 : l2.Nodup) :
    (l1.filter (fun a => decide (a ∈ l2))).length =
      (l2.filter (fun a => decide (a ∈ l1))).length := by
  have e1 : (l1.filter (fun a => decide (a ∈ l2))).toFinset =
      l1.toFinset ∩ l2.toFinset := by
    ext a
    simp [List.mem_filter]
  have e2 : (l2.filter (fun a => decide (a ∈ l1))).toFinset =
      l2.toFinset ∩ l1.toFinset := by
    ext a
    simp [List.mem_filter]
  rw [← List.toFinset_card_of_nodup (h1.filter _),
    ← List.toFinset_card_of_nodup (h2.filter _), e1, e2, Finset.inter_comm]

end Mines

namespace Mines

theorem revOnly_refl (t : Tile) : revOnly t t := Or.inl rfl

theorem revOnly_trans {t u v : Tile} (h1 : revOnly t u) (h2 : revOnly u v) :
    revOnly t v := by
  rcases h1 with rfl | rfl
  · exact h2
  · rcases h2 with rfl | rfl
    · exact Or.inr rfl
    · exact Or.inr rfl

theorem revOnly_fields {t u : Tile} (h : revOnly t u) :
    u.row = t.row ∧ u.col = t.col ∧ u.bombsInNeighbor = t.bombsInNeighbor ∧
      u.isBomb = t.isBomb ∧ u.isFlagged = t.isFlagged := by
  rcases h with rfl | rfl <;> exact ⟨rfl, rfl, rfl, rfl, rfl⟩

theorem revOnly_mono_rev {t u : Tile} (h : revOnly t u)
    (ht : t.isRevealed = true) : u.isRevealed = true := by
  rcases h with rfl | rfl
  · exact ht
  · rfl

theorem processAll_grid_frame (ps : List (Nat × Nat)) (grid : Grid)
    (queue : List (Nat × Nat)) (changed : List Tile) (p : Nat × Nat) :
    revOnly (grid p.1 p.2) ((processAll ps grid queue changed).1 p.1 p.2) := by
  induction ps generalizing grid queue changed with
  | nil => exact revOnly_refl _
  | cons q ps ih =>
    rw [processAll]
    split
    · exact ih grid queue changed
    · refine revOnly_trans ?_ (ih _ _ _)
      rw [setTile_apply]
      split
      · rename_i h
        right
        rw [h.1, h.2]
      · exact Or.inl rfl

theorem bfsFuel_grid_frame (rows cols : Nat) (fuel : Nat) (grid : Grid)
    (queue : List (Nat × Nat)) (changed : List Tile) (p : Nat × Nat) :
    revOnly (grid p.1 p.2) ((bfsFuel rows cols fuel grid queue changed).1 p.1 p.2) := by
  induction fuel generalizing grid queue changed with
  | zero =>
    cases queue with
    | nil => exact revOnly_refl _
    | cons pos rest => exact revOnly_refl _
  | succ fuel ih =>
    cases queue with
    | nil => exact revOnly_refl _
    | cons pos rest =>
      rw [bfsFuel]
      exact revOnly_trans (processAll_grid_frame _ _ _ _ _) (ih _ _ _)

theorem processAll_changed_prefix (ps : List (Nat × Nat)) (grid : Grid)
    (queue : List (Nat × Nat)) (changed : List Tile) :
    ∃ tail, (processAll ps grid queue changed).2.2 = changed ++ tail := by
  induction ps generalizing grid queue changed with
  | nil => exact ⟨[], (List.append_nil changed).symm⟩
  | cons q ps ih =>
    rw [processAll]
    split
    · exact ih grid queue changed
    · obtain ⟨tail, htail⟩ := ih
        (setTile grid q.1 q.2 ({ grid q.1 q.2 with isRevealed := true }))
        (if (grid q.1 q.2).bombsInNeighbor == 0 then
          queue ++ [((grid q.1 q.2).row, (grid q.1 q.2).col)] else queue)
        (changed ++ [{ grid q.1 q.2 with isRevealed := true }])
      exact ⟨{ grid q.1 q.2 with isRevealed := true } :: tail, by
        rw [htail, List.append_assoc]; rfl⟩

theorem bfsFuel_changed_prefix (rows cols : Nat) (fuel : Nat) (grid : Grid)
    (queue : List (Nat × Nat)) (changed : List Tile) :
    ∃ tail, (bfsFuel rows cols fuel grid queue changed).2 = changed ++ tail := by
  induction fuel generalizing grid queue changed with
  | zero =>
    cases queue with
    | nil => exact ⟨[], (List.append_nil changed).symm⟩
    | cons pos rest => exact ⟨[], (List.append_nil changed).symm⟩
  | succ fuel ih =>
    cases queue with
    | nil => exact ⟨[], (List.append_nil changed).symm⟩
    | cons pos rest =>
      rw [bfsFuel]
      obtain ⟨t1, ht1⟩ := processAll_changed_prefix
        (getNeighborsPosition rows cols pos.1 pos.2) grid rest changed
      obtain ⟨t2, ht2⟩ := ih
        (processAll (getNeighborsPosition rows cols pos.1 pos.2) grid rest changed).1
        (processAll (getNeighborsPosition rows cols pos.1 pos.2) grid rest changed).2.1
        (processAll (getNeighborsPosition rows cols pos.1 pos.2) grid rest changed).2.2
      exact ⟨t1 ++ t2, by rw [ht2, ht1, List.append_assoc]⟩

theorem unrevealedCount_setTile {rows cols : Nat} {grid : Grid} {p : Nat × Nat}
    {t : Tile} (hinb : inb rows cols p)
    (hrev : (grid p.1 p.2).isRevealed = false) (ht : t.isRevealed = true) :
    unrevealedCount rows cols grid =
      unrevealedCount rows cols (setTile grid p.1 p.2 t) + 1 := by
  unfold unrevealedCount
  have hmem : p ∈ (Finset.range rows ×ˢ Finset.range cols).filter
      (fun q => (grid q.1 q.2).isRevealed = false) := by
    rw [Finset.mem_filter, Finset.mem_product, Finset.mem_range, Finset.mem_range]
    exact ⟨⟨hinb.1, hinb.2⟩, hrev⟩
  have heq : (Finset.range rows ×ˢ Finset.range cols).filter
      (fun q => (setTile grid p.1 p.2 t q.1 q.2).isRevealed = false) =
      ((Finset.range rows ×ˢ Finset.range cols).filter
        (fun q => (grid q.1 q.2).isRevealed = false)).erase p := by
    ext q
    rw [Finset.mem_erase, Finset.mem_filter, Finset.mem_filter, setTile_apply]
    constructor
    · rintro ⟨hq, hqrev⟩
      split at hqrev
      · rename_i h
        rw [ht] at hqrev
        exact absurd hqrev (by simp)
      · rename_i h
        refine ⟨?_, hq, hqrev⟩
        rintro rfl
        exact h ⟨rfl, rfl⟩
    · rintro ⟨hne, hq, hqrev⟩
      refine ⟨hq, ?_⟩
      split
      · rename_i h
        exact absurd (Prod.ext h.1 h.2) hne
      · exact hqrev
  rw [heq, Finset.card_erase_add_one hmem]

theorem processAll_measure {rows cols : Nat} (ps : List (Nat × Nat))
    (grid : Grid) (queue : List (Nat × Nat)) (changed : List Tile)
    (hps : ∀ q ∈ ps, inb rows cols q) :
    (processAll ps grid queue changed).2.1.length +
        unrevealedCount rows cols (processAll ps grid queue changed).1 ≤
      queue.length + unrevealedCount rows cols grid := by
  induction ps generalizing grid queue changed with
  | nil => exact Nat.le_refl _
  | cons q ps ih =>
    rw [processAll]
    split
    · exact ih grid queue changed (fun x hx => hps x (List.mem_cons_of_mem q hx))
    · rename_i hguard
      have hguard2 := hguard
      simp only [Bool.or_eq_true, not_or, Bool.not_eq_true] at hguard2
      have hrev : (grid q.1 q.2).isRevealed = false := hguard2.2
      have hU := unrevealedCount_setTile (t := { grid q.1 q.2 with isRevealed := true })
        (hps q (List.mem_cons_self q ps)) hrev rfl
      have hq : (if (grid q.1 q.2).bombsInNeighbor == 0 then
          queue ++ [((grid q.1 q.2).row, (grid q.1 q.2).col)] else queue).length ≤
          queue.length + 1 := by
        split
        · rw [List.length_append]
          exact Nat.le_refl _
        · exact Nat.le_succ _
      calc (processAll ps _ _ _).2.1.length + unrevealedCount rows cols (processAll ps _ _ _).1
          ≤ (if (grid q.1 q.2).bombsInNeighbor == 0 then
              queue ++ [((grid q.1 q.2).row, (grid q.1 q.2).col)] else queue).length +
            unrevealedCount rows cols
              (setTile grid q.1 q.2 ({ grid q.1 q.2 with isRevealed := true })) :=
            ih _ _ _ (fun x hx => hps x (List.mem_cons_of_mem q hx))
        _ ≤ queue.length + unrevealedCount rows cols grid := by omega

end Mines

namespace Mines

theorem reveal_not_ongoing {g : Game} {row col : Int}
    (h : g.state ≠ State.ONGOING) :
    reveal g row col = Except.error Err.invalidState := by
  unfold reveal
  rw [if_pos h]

theorem toggleFlag_not_ongoing {g : Game} {row col : Int}
    (h : g.state ≠ State.ONGOING) :
    toggleFlag g row col = Except.error Err.invalidState := by
  unfold toggleFlag
  rw [if_pos h]

theorem reveal_oob {g : Game} {row col : Int}
    (hstate : g.state = State.ONGOING)
    (h : pyIndex g.rows row = none ∨ pyIndex g.cols col = none) :
    reveal g row col = Except.error Err.outOfBounds := by
  unfold reveal
  rw [if_neg (by simp [hstate])]
  rcases h with h | h
  · rw [h]
  · rw [h]
    rcases hr : pyIndex g.rows row with _ | r <;> rfl

theorem toggleFlag_oob {g : Game} {row col : Int}
    (hstate : g.state = State.ONGOING)
    (h : pyIndex g.rows row = none ∨ pyIndex g.cols col = none) :
    toggleFlag g row col = Except.error Err.outOfBounds := by
  unfold toggleFlag
  rw [if_neg (by simp [hstate])]
  rcases h with h | h
  · rw [h]
  · rw [h]
    rcases hr : pyIndex g.rows row with _ | r <;> rfl

theorem reveal_bomb {g : Game} {row col : Int} {r c : Nat}
    (hstate : g.state = State.ONGOING)
    (hr : pyIndex g.rows row = some r) (hc : pyIndex g.cols col = some c)
    (hbomb : (g.grid r c).isBomb = true) :
    reveal g row col = Except.ok ([], { g with state := State.LOSE }) := by
  unfold reveal
  rw [if_neg (by simp [hstate]), hr, hc]
  simp only [hbomb, if_true]

theorem reveal_revealed {g : Game} {row col : Int} {r c : Nat}
    (hstate : g.state = State.ONGOING)
    (hr : pyIndex g.rows row = some r) (hc : pyIndex g.cols col = some c)
    (hbomb : (g.grid r c).isBomb = false)
    (hrev : (g.grid r c).isRevealed = true) :
    reveal g row col = Except.ok ([], g) := by
  unfold reveal
  rw [if_neg (by simp [hstate]), hr, hc]
  simp only [hbomb, hrev, Bool.false_eq_true, if_false, if_true]

theorem reveal_numbered {g : Game} {row col : Int} {r c : Nat}
    (hstate : g.state = State.ONGOING)
    (hr : pyIndex g.rows row = some r) (hc : pyIndex g.cols col = some c)
    (hbomb : (g.grid r c).isBomb = false)
    (hrev : (g.grid r c).isRevealed = false)
    (hnum : (g.grid r c).bombsInNeighbor ≠ 0) :
    reveal g row col = Except.ok ([{ g.grid r c with isRevealed := true }],
      { g with grid := setTile g.grid r c ({ g.grid r c with isRevealed := true }) }) := by
  unfold reveal
  rw [if_neg (by simp [hstate]), hr, hc]
  simp only [hbomb, hrev, Bool.false_eq_true, if_false, if_pos hnum]

theorem reveal_blank {g : Game} {row col : Int} {r c : Nat}
    (hstate : g.state = State.ONGOING)
    (hr : pyIndex g.rows row = some r) (hc : pyIndex g.cols col = some c)
    (hbomb : (g.grid r c).isBomb = false)
    (hrev : (g.grid r c).isRevealed = false)
    (hblank : (g.grid r c).bombsInNeighbor = 0) :
    reveal g row col = Except.ok
      ((bfsFuel g.rows g.cols (g.rows * g.cols + 1)
          (setTile g.grid r c ({ g.grid r c with isRevealed := true }))
          [((g.grid r c).row, (g.grid r c).col)]
          [{ g.grid r c with isRevealed := true }]).2,
        { g with grid := (bfsFuel g.rows g.cols (g.rows * g.cols + 1)
          (setTile g.grid r c ({ g.grid r c with isRevealed := true }))
          [((g.grid r c).row, (g.grid r c).col)]
          [{ g.grid r c with isRevealed := true }]).1 }) := by
  unfold reveal
  rw [if_neg (by simp [hstate]), hr, hc]
  simp only [hbomb, hrev, hblank, Bool.false_eq_true, if_false, ne_eq,
    not_true_eq_false, not_false_eq_true, if_true]

theorem toggleFlag_revealed {g : Game} {row col : Int} {r c : Nat}
    (hstate : g.state = State.ONGOING)
    (hr : pyIndex g.rows row = some r) (hc : pyIndex g.cols col = some c)
    (hrev : (g.grid r c).isRevealed = true) :
    toggleFlag g row col = Except.error Err.invalidOperation := by
  unfold toggleFlag
  rw [if_neg (by simp [hstate]), hr, hc]
  simp only [hrev, if_true]

theorem toggleFlag_unrevealed {g : Game} {row col : Int} {r c : Nat}
    (hstate : g.state = State.ONGOING)
    (hr : pyIndex g.rows row = some r) (hc : pyIndex g.cols col = some c)
    (hrev : (g.grid r c).isRevealed = false) :
    toggleFlag g row col =
      Except.ok (!(g.grid r c).isFlagged,
        if (!(g.grid r c).isFlagged) &&
            (decide (g.flags + (if !(g.grid r c).isFlagged then 1 else -1) = g.nbombs) &&
              checkIfAllBombsAreFlagged ({ g with
                grid := setTile g.grid r c ({ g.grid r c with isFlagged := !(g.grid r c).isFlagged }),
                flags := g.flags + (if !(g.grid r c).isFlagged then 1 else -1) }))
        then { g with
          grid := setTile g.grid r c ({ g.grid r c with isFlagged := !(g.grid r c).isFlagged }),
          flags := g.flags + (if !(g.grid r c).isFlagged then 1 else -1),
          state := State.WIN }
        else { g with
          grid := setTile g.grid r c ({ g.grid r c with isFlagged := !(g.grid r c).isFlagged }),
          flags := g.flags + (if !(g.grid r c).isFlagged then 1 else -1) }) := by
  unfold toggleFlag
  rw [if_neg (by simp [hstate]), hr, hc]
  simp only [hrev, Bool.false_eq_true, if_false]

end Mines

namespace Mines

/-- C3: in state ONGOING, revealing an in-bounds bomb tile sets the state
to LOSE, returns the empty list, and mutates no tile: the grid and flag
counter are unchanged and the bomb tile itself stays unrevealed. -/
theorem c3_reveal_bomb_loses (g : Game) (row col : Int) (r c : Nat)
    (hstate : g.state = State.ONGOING)
    (hr : pyIndex g.rows row = some r) (hc : pyIndex g.cols col = some c)
    (hbomb : (g.grid r c).isBomb = true)
    (hunrev : (g.grid r c).isRevealed = false) :
    ∃ g2, reveal g row col = Except.ok ([], g2) ∧ g2.state = State.LOSE ∧
      g2.flags = g.flags ∧ (∀ i j : Nat, g2.grid i j = g.grid i j) ∧
      (g2.grid r c).isRevealed = false :=
  ⟨{ g with state := State.LOSE }, reveal_bomb hstate hr hc hbomb, rfl, rfl,
    fun i j => rfl, hunrev⟩

/-- Evaluates `c3_reveal_bomb_loses` on the 3-by-3 board with its bomb at
the center. -/
theorem c3_reveal_bomb_loses_witness :
    game33.state = State.ONGOING ∧ pyIndex game33.rows 1 = some 1 ∧
      pyIndex game33.cols 1 = some 1 ∧ (game33.grid 1 1).isBomb = true ∧
      (game33.grid 1 1).isRevealed = false ∧
      (∃ g2, reveal game33 1 1 = Except.ok ([], g2) ∧ g2.state = State.LOSE ∧
        g2.flags = game33.flags ∧ (∀ i j : Nat, g2.grid i j = game33.grid i j) ∧
        (g2.grid 1 1).isRevealed = false) :=
  ⟨rfl, by decide, by decide, by decide, by decide,
    c3_reveal_bomb_loses game33 1 1 1 1 rfl (by decide) (by decide)
      (by decide) (by decide)⟩

/-- C4: WIN and LOSE are terminal: in any state other than ONGOING, both
reveal and toggleFlag fail with the invalid-state error, mutating
nothing. -/
theorem c4_terminal_states (g : Game) (row col : Int)
    (h : g.state = State.WIN ∨ g.state = State.LOSE) :
    reveal g row col = Except.error Err.invalidState ∧
      toggleFlag g row col = Except.error Err.invalidState := by
  have hne : g.state ≠ State.ONGOING := by
    rcases h with h | h <;> rw [h] <;> intro hcontra <;> cases hcontra
  exact ⟨reveal_not_ongoing hne, toggleFlag_not_ongoing hne⟩

/-- Evaluates `c4_terminal_states` on a lost 3-by-3 game. -/
theorem c4_terminal_states_witness :
    (gameLost.state = State.WIN ∨ gameLost.state = State.LOSE) ∧
      reveal gameLost 0 0 = Except.error Err.invalidState ∧
      toggleFlag gameLost 0 0 = Except.error Err.invalidState :=
  ⟨Or.inr rfl, c4_terminal_states gameLost 0 0 (Or.inr rfl)⟩

/-- C5 fails on the code: coordinate -1 lies outside the valid range, yet
`toggleFlag(-1, 0)` on the 3-by-3 board does not fail; following Python
negative indexing it wraps to row 2, flags tile (2,0), bumps the flag
counter and returns true. -/
theorem c5_negative_index_not_rejected :
    ((-1 : Int) < 0 ∨ (3 : Int) ≤ (-1 : Int)) ∧
      (toggleFlag game33 (-1) 0).isOk = true ∧
      (Except.toOption (toggleFlag game33 (-1) 0)).map
        (fun x => (x.1, (x.2.grid 2 0).isFlagged, x.2.flags,
          x.2.state == State.ONGOING)) = some (true, true, 1, true) := by
  refine ⟨Or.inl (by decide), by decide, by decide⟩

/-- C6 as stated is false on the code: the difficulty with one row, one
column and one bomb satisfies `bombs >= rows*cols`, yet construction
succeeds (`random.sample` accepts a sample of the whole population). -/
theorem c6_counterexample :
    ((Difficulty.mk 1 1 1).rows * (Difficulty.mk 1 1 1).cols : Int) ≤
        (Difficulty.mk 1 1 1).bombs ∧
      (mkGame (Difficulty.mk 1 1 1) [(0, 0)]).isOk = true := by
  refine ⟨by decide, by decide⟩

/-- C6 amended: construction fails with the config error exactly when
`bombs < 0` or `bombs > rows*cols`; the boundary cases `bombs = 0` and
`bombs = rows*cols` are accepted. -/
theorem c6_construction_fails_iff (d : Difficulty) (bs : List (Nat × Nat)) :
    mkGame d bs = Except.error Err.config ↔
      (d.bombs < 0 ∨ ((d.rows * d.cols : Nat) : Int) < d.bombs) := by
  unfold mkGame
  split
  · rename_i h
    unfold sampleOk at h
    constructor
    · intro hcontra
      cases hcontra
    · intro habs
      omega
  · rename_i h
    unfold sampleOk at h
    constructor
    · intro _
      omega
    · intro _
      rfl

end Mines

namespace Mines

/-- Helper for the win check: the state of the game value built by the
flagging branch of toggleFlag is WIN exactly when the flag was placed,
the counter matches, and every bomb is flagged. -/
theorem toggleWin_iff (g1 : Game) (nb : Int) (b : Bool)
    (hstate1 : g1.state = State.ONGOING) :
    ((if b && (decide (g1.flags = nb) && checkIfAllBombsAreFlagged g1)
        then { g1 with state := State.WIN } else g1).state = State.WIN ↔
      (b = true ∧
        (if b && (decide (g1.flags = nb) && checkIfAllBombsAreFlagged g1)
          then { g1 with state := State.WIN } else g1).flags = nb ∧
        ∀ p ∈ (if b && (decide (g1.flags = nb) && checkIfAllBombsAreFlagged g1)
            then { g1 with state := State.WIN } else g1).bombs,
          ((if b && (decide (g1.flags = nb) && checkIfAllBombsAreFlagged g1)
            then { g1 with state := State.WIN } else g1).grid p.1 p.2).isFlagged =
            true)) ∧
    (b = false →
      (if b && (decide (g1.flags = nb) && checkIfAllBombsAreFlagged g1)
        then { g1 with state := State.WIN } else g1).state = State.ONGOING) := by
  split
  · rename_i hcond
    simp only [Bool.and_eq_true, decide_eq_true_eq] at hcond
    have hchk := hcond.2.2
    simp only [checkIfAllBombsAreFlagged, List.all_eq_true,
      decide_eq_true_eq] at hchk
    constructor
    · constructor
      · intro _
        exact ⟨hcond.1, hcond.2.1, fun p hp => hchk p hp⟩
      · intro _
        rfl
    · intro hb
      rw [hcond.1] at hb
      cases hb
  · rename_i hcond
    constructor
    · constructor
      · intro habs
        rw [hstate1] at habs
        cases habs
      · rintro ⟨hb, hfl, hall⟩
        exfalso
        apply hcond
        simp only [Bool.and_eq_true, decide_eq_true_eq]
        refine ⟨hb, hfl, ?_⟩
        simp only [checkIfAllBombsAreFlagged, List.all_eq_true,
          decide_eq_true_eq]
        intro p hp
        exact hall p hp
    · intro _
      exact hstate1

/-- C7: in state ONGOING, toggleFlag on a revealed in-bounds tile fails
with the invalid-operation error; on an unrevealed tile it flips that
tile's isFlagged, moves the flag counter by exactly plus one when
flagging and minus one when unflagging, returns the new isFlagged value,
and touches no other tile. -/
theorem c7_toggleFlag_behavior (g : Game) (row col : Int) (r c : Nat)
    (hstate : g.state = State.ONGOING)
    (hr : pyIndex g.rows row = some r) (hc : pyIndex g.cols col = some c) :
    ((g.grid r c).isRevealed = true →
      toggleFlag g row col = Except.error Err.invalidOperation) ∧
    ((g.grid r c).isRevealed = false →
      ∃ g2, toggleFlag g row col = Except.ok (!(g.grid r c).isFlagged, g2) ∧
        (g2.grid r c).isFlagged = (!(g.grid r c).isFlagged) ∧
        ((g.grid r c).isFlagged = false → g2.flags = g.flags + 1) ∧
        ((g.grid r c).isFlagged = true → g2.flags = g.flags - 1) ∧
        (∀ i j : Nat, ¬(i = r ∧ j = c) → g2.grid i j = g.grid i j)) := by
  constructor
  · intro hrev
    exact toggleFlag_revealed hstate hr hc hrev
  · intro hrev
    rw [toggleFlag_unrevealed hstate hr hc hrev]
    refine ⟨_, rfl, ?_, ?_, ?_, ?_⟩
    · split <;> split <;> (dsimp only; rw [setTile_same])
    · intro hf
      split
      · split <;> rfl
      · rename_i hF
        rw [hf] at hF
        simp at hF
    · intro hf
      split
      · rename_i hF
        rw [hf] at hF
        simp at hF
      · split <;> rfl
    · intro i j hne
      split <;> split <;> (dsimp only; rw [setTile_apply, if_neg hne])


theorem c7_toggleFlag_behavior_witness :
    game33.state = State.ONGOING ∧ pyIndex game33.rows 0 = some 0 ∧
      pyIndex game33.cols 0 = some 0 ∧
      (((game33.grid 0 0).isRevealed = true →
        toggleFlag game33 0 0 = Except.error Err.invalidOperation) ∧
      ((game33.grid 0 0).isRevealed = false →
        ∃ g2, toggleFlag game33 0 0 = Except.ok (!(game33.grid 0 0).isFlagged, g2) ∧
          (g2.grid 0 0).isFlagged = (!(game33.grid 0 0).isFlagged) ∧
          ((game33.grid 0 0).isFlagged = false → g2.flags = game33.flags + 1) ∧
          ((game33.grid 0 0).isFlagged = true → g2.flags = game33.flags - 1) ∧
          (∀ i j : Nat, ¬(i = 0 ∧ j = 0) → g2.grid i j = game33.grid i j))) :=
  ⟨rfl, by decide, by decide,
    c7_toggleFlag_behavior game33 0 0 0 0 rfl (by decide) (by decide)⟩

/-- C2: in state ONGOING, a toggleFlag call on an unrevealed in-bounds
tile ends in state WIN exactly when it placed a flag (returned true), the
running flag counter now equals the configured bomb count, and every bomb
coordinate is flagged; a call that removed a flag leaves the state
ONGOING. -/
theorem c2_win_characterization (g : Game) (row col : Int) (r c : Nat)
    (hstate : g.state = State.ONGOING)
    (hr : pyIndex g.rows row = some r) (hc : pyIndex g.cols col = some c)
    (hrev : (g.grid r c).isRevealed = false) :
    ∃ b g2, toggleFlag g row col = Except.ok (b, g2) ∧
      (g2.state = State.WIN ↔
        (b = true ∧ g2.flags = g.nbombs ∧
          ∀ p ∈ g2.bombs, (g2.grid p.1 p.2).isFlagged = true)) ∧
      (b = false → g2.state = State.ONGOING) := by
  rw [toggleFlag_unrevealed hstate hr hc hrev]
  refine ⟨!(g.grid r c).isFlagged, _, rfl, ?_, ?_⟩
  · exact (toggleWin_iff ({ g with
      grid := setTile g.grid r c ({ g.grid r c with isFlagged := !(g.grid r c).isFlagged }),
      flags := g.flags + (if !(g.grid r c).isFlagged then 1 else -1) })
      g.nbombs (!(g.grid r c).isFlagged) hstate).1
  · exact (toggleWin_iff ({ g with
      grid := setTile g.grid r c ({ g.grid r c with isFlagged := !(g.grid r c).isFlagged }),
      flags := g.flags + (if !(g.grid r c).isFlagged then 1 else -1) })
      g.nbombs (!(g.grid r c).isFlagged) hstate).2


theorem c2_win_characterization_witness :
    game33.state = State.ONGOING ∧ pyIndex game33.rows 1 = some 1 ∧
      pyIndex game33.cols 1 = some 1 ∧ (game33.grid 1 1).isRevealed = false ∧
      (∃ b g2, toggleFlag game33 1 1 = Except.ok (b, g2) ∧
        (g2.state = State.WIN ↔
          (b = true ∧ g2.flags = game33.nbombs ∧
            ∀ p ∈ g2.bombs, (g2.grid p.1 p.2).isFlagged = true)) ∧
        (b = false → g2.state = State.ONGOING)) :=
  ⟨rfl, by decide, by decide, by decide,
    c2_win_characterization game33 1 1 1 1 rfl (by decide) (by decide)
      (by decide)⟩

/-- C9: in state ONGOING, revealing an already revealed non-bomb tile
returns the empty list and changes nothing, and a second reveal of the
same coordinate right after a successful one returns the empty list and
leaves the state of the first reveal untouched. -/
theorem c9_reveal_idempotent (g : Game) (row col : Int) (r c : Nat)
    (hstate : g.state = State.ONGOING)
    (hr : pyIndex g.rows row = some r) (hc : pyIndex g.cols col = some c)
    (hbomb : (g.grid r c).isBomb = false) :
    ((g.grid r c).isRevealed = true → reveal g row col = Except.ok ([], g)) ∧
    (∀ lst g2, reveal g row col = Except.ok (lst, g2) →
      reveal g2 row col = Except.ok ([], g2)) := by
  constructor
  · intro hrev
    exact reveal_revealed hstate hr hc hbomb hrev
  · intro lst g2 hcall
    rcases hrevq : (g.grid r c).isRevealed with _ | _
    · rcases hnumq : (g.grid r c).bombsInNeighbor with _ | n
      · rw [reveal_blank hstate hr hc hbomb hrevq hnumq] at hcall
        injection hcall with hcall
        have hg2 := congrArg Prod.snd hcall
        dsimp only at hg2
        subst hg2
        have hfr := bfsFuel_grid_frame g.rows g.cols (g.rows * g.cols + 1)
          (setTile g.grid r c ({ g.grid r c with isRevealed := true }))
          [((g.grid r c).row, (g.grid r c).col)]
          [{ g.grid r c with isRevealed := true }] (r, c)
        rw [setTile_same] at hfr
        have hrev2 : ((bfsFuel g.rows g.cols (g.rows * g.cols + 1)
            (setTile g.grid r c ({ g.grid r c with isRevealed := true }))
            [((g.grid r c).row, (g.grid r c).col)]
            [{ g.grid r c with isRevealed := true }]).1 r c).isRevealed = true :=
          revOnly_mono_rev hfr rfl
        have hbomb2 : ((bfsFuel g.rows g.cols (g.rows * g.cols + 1)
            (setTile g.grid r c ({ g.grid r c with isRevealed := true }))
            [((g.grid r c).row, (g.grid r c).col)]
            [{ g.grid r c with isRevealed := true }]).1 r c).isBomb = false := by
          have := (revOnly_fields hfr).2.2.2.1
          rw [this]
          exact hbomb
        exact reveal_revealed (g := { g with grid := _ }) hstate hr hc hbomb2 hrev2
      · rw [reveal_numbered hstate hr hc hbomb hrevq (by rw [hnumq]; exact Nat.succ_ne_zero n)] at hcall
        injection hcall with hcall
        have hg2 := congrArg Prod.snd hcall
        dsimp only at hg2
        subst hg2
        refine reveal_revealed (g := { g with grid := _ }) hstate hr hc ?_ ?_
        · show (setTile g.grid r c _ r c).isBomb = false
          rw [setTile_same]
          exact hbomb
        · show (setTile g.grid r c _ r c).isRevealed = true
          rw [setTile_same]
    · rw [reveal_revealed hstate hr hc hbomb hrevq] at hcall
      injection hcall with hcall
      have hg2 := congrArg Prod.snd hcall
      dsimp only at hg2
      subst hg2
      exact reveal_revealed hstate hr hc hbomb hrevq

/-- Evaluates `c9_reveal_idempotent` on the corner of the 3-by-3 board. -/
theorem c9_reveal_idempotent_witness :
    game33.state = State.ONGOING ∧ pyIndex game33.rows 0 = some 0 ∧
      pyIndex game33.cols 0 = some 0 ∧ (game33.grid 0 0).isBomb = false ∧
      (((game33.grid 0 0).isRevealed = true →
        reveal game33 0 0 = Except.ok ([], game33)) ∧
      (∀ lst g2, reveal game33 0 0 = Except.ok (lst, g2) →
        reveal g2 0 0 = Except.ok ([], g2))) :=
  ⟨rfl, by decide, by decide, by decide,
    c9_reveal_idempotent game33 0 0 0 0 rfl (by decide) (by decide) (by decide)⟩

end Mines

namespace Mines

/-- C10: reveal never inspects the clicked tile's isFlagged: a flagged
bomb loses exactly as an unflagged one, and a flagged unrevealed non-bomb
tile is revealed and returned, ending up both flagged and revealed. -/
theorem c10_direct_reveal_ignores_flag (g : Game) (row col : Int) (r c : Nat)
    (hstate : g.state = State.ONGOING)
    (hr : pyIndex g.rows row = some r) (hc : pyIndex g.cols col = some c)
    (hflag : (g.grid r c).isFlagged = true) :
    ((g.grid r c).isBomb = true →
      reveal g row col = Except.ok ([], { g with state := State.LOSE })) ∧
    ((g.grid r c).isBomb = false → (g.grid r c).isRevealed = false →
      ∃ lst g2, reveal g row col = Except.ok (lst, g2) ∧
        lst.head? = some ({ g.grid r c with isRevealed := true }) ∧
        (g2.grid r c).isRevealed = true ∧ (g2.grid r c).isFlagged = true ∧
        g2.state = State.ONGOING) := by
  constructor
  · intro hbomb
    exact reveal_bomb hstate hr hc hbomb
  · intro hbomb hrev
    rcases hnumq : (g.grid r c).bombsInNeighbor with _ | n
    · rw [reveal_blank hstate hr hc hbomb hrev hnumq]
      have hfr := bfsFuel_grid_frame g.rows g.cols (g.rows * g.cols + 1)
        (setTile g.grid r c ({ g.grid r c with isRevealed := true }))
        [((g.grid r c).row, (g.grid r c).col)]
        [{ g.grid r c with isRevealed := true }] (r, c)
      rw [setTile_same] at hfr
      refine ⟨_, _, rfl, ?_, ?_, ?_, hstate⟩
      · obtain ⟨tail, htail⟩ := bfsFuel_changed_prefix g.rows g.cols
          (g.rows * g.cols + 1)
          (setTile g.grid r c ({ g.grid r c with isRevealed := true }))
          [((g.grid r c).row, (g.grid r c).col)]
          [{ g.grid r c with isRevealed := true }]
        rw [htail]
        rfl
      · exact revOnly_mono_rev hfr rfl
      · rw [(revOnly_fields hfr).2.2.2.2]
        exact hflag
    · rw [reveal_numbered hstate hr hc hbomb hrev
        (by rw [hnumq]; exact Nat.succ_ne_zero n)]
      refine ⟨_, _, rfl, rfl, ?_, ?_, hstate⟩
      · show (setTile g.grid r c _ r c).isRevealed = true
        rw [setTile_same]
      · show (setTile g.grid r c _ r c).isFlagged = true
        rw [setTile_same]
        exact hflag

/-- Evaluates `c10_direct_reveal_ignores_flag` on the 3-by-3 board whose
corner tile carries a flag: revealing the flagged corner still reveals
it. -/
theorem c10_direct_reveal_ignores_flag_witness :
    game33f.state = State.ONGOING ∧ pyIndex game33f.rows 0 = some 0 ∧
      pyIndex game33f.cols 0 = some 0 ∧ (game33f.grid 0 0).isFlagged = true ∧
      (((game33f.grid 0 0).isBomb = true →
        reveal game33f 0 0 = Except.ok ([], { game33f with state := State.LOSE })) ∧
      ((game33f.grid 0 0).isBomb = false → (game33f.grid 0 0).isRevealed = false →
        ∃ lst g2, reveal game33f 0 0 = Except.ok (lst, g2) ∧
          lst.head? = some ({ game33f.grid 0 0 with isRevealed := true }) ∧
          (g2.grid 0 0).isRevealed = true ∧ (g2.grid 0 0).isFlagged = true ∧
          g2.state = State.ONGOING)) :=
  ⟨rfl, by decide, by decide, by decide,
    c10_direct_reveal_ignores_flag game33f 0 0 0 0 rfl (by decide) (by decide)
      (by decide)⟩

/-- C8: a successful construction under a valid sample yields exactly
`bombs` distinct in-bounds bomb coordinates; a tile is a bomb exactly
when its coordinate was drawn, and every non-bomb tile's bombsInNeighbor
equals the number of its in-bounds Chebyshev neighbors that lie in the
bomb set. -/
theorem c8_generation (d : Difficulty) (bs : List (Nat × Nat)) (game : Game)
    (hb0 : 0 < d.bombs) (hb1 : d.bombs < ((d.rows * d.cols : Nat) : Int))
    (hs : validSample d bs)
    (hmk : mkGame d bs = Except.ok game) :
    (game.bombs.length : Int) = d.bombs ∧ game.bombs.Nodup ∧
      (∀ p ∈ game.bombs, p.1 < d.rows ∧ p.2 < d.cols) ∧
      (∀ p : Nat × Nat, p.1 < d.rows → p.2 < d.cols →
        ((game.grid p.1 p.2).isBomb = true ↔ p ∈ game.bombs)) ∧
      (∀ p : Nat × Nat, p.1 < d.rows → p.2 < d.cols →
        (game.grid p.1 p.2).isBomb = false →
        (game.grid p.1 p.2).bombsInNeighbor =
          ((getNeighborsPosition d.rows d.cols p.1 p.2).filter
            (fun q => decide (q ∈ game.bombs))).length) := by
  unfold mkGame at hmk
  split at hmk
  · injection hmk with hmk
    subst hmk
    refine ⟨hs.2.2, hs.1, hs.2.1, ?_, ?_⟩
    · intro p hp1 hp2
      show ((generateGrid d.rows d.cols bs) p.1 p.2).isBomb = true ↔ p ∈ bs
      rw [generateGrid_apply]
      simp
    · intro p hp1 hp2 _
      show ((generateGrid d.rows d.cols bs) p.1 p.2).bombsInNeighbor = _
      rw [generateGrid_apply]
      show bs.countP _ = _
      rw [List.countP_eq_length_filter]
      have hpt : ∀ b ∈ bs,
          (decide ((p.1, p.2) ∈ getNeighborsPosition d.rows d.cols b.1 b.2)) =
          (decide (b ∈ getNeighborsPosition d.rows d.cols p.1 p.2)) := by
        intro b hb
        rw [decide_eq_decide]
        exact getNeighborsPosition_comm
          ⟨(hs.2.1 b hb).1, (hs.2.1 b hb).2⟩ ⟨hp1, hp2⟩
      rw [List.filter_congr hpt]
      show (bs.filter (fun b => decide (b ∈ getNeighborsPosition d.rows d.cols p.1 p.2))).length =
        ((getNeighborsPosition d.rows d.cols p.1 p.2).filter
          (fun q => decide (q ∈ bs))).length
      exact length_filter_mem_comm hs.1
        (getNeighborsPosition_nodup d.rows d.cols p.1 p.2)
  · cases hmk

/-- Evaluates `c8_generation` on the 3-by-3 board with one bomb drawn at
the center. -/
theorem c8_generation_witness :
    0 < (Difficulty.mk 3 3 1).bombs ∧
      (Difficulty.mk 3 3 1).bombs < ((3 * 3 : Nat) : Int) ∧
      validSample (Difficulty.mk 3 3 1) [(1, 1)] ∧
      mkGame (Difficulty.mk 3 3 1) [(1, 1)] = Except.ok game33 ∧
      ((game33.bombs.length : Int) = (Difficulty.mk 3 3 1).bombs ∧
        game33.bombs.Nodup ∧
        (∀ p ∈ game33.bombs, p.1 < 3 ∧ p.2 < 3) ∧
        (∀ p : Nat × Nat, p.1 < 3 → p.2 < 3 →
          ((game33.grid p.1 p.2).isBomb = true ↔ p ∈ game33.bombs)) ∧
        (∀ p : Nat × Nat, p.1 < 3 → p.2 < 3 →
          (game33.grid p.1 p.2).isBomb = false →
          (game33.grid p.1 p.2).bombsInNeighbor =
            ((getNeighborsPosition 3 3 p.1 p.2).filter
              (fun q => decide (q ∈ game33.bombs))).length)) :=
  ⟨by decide, by decide, by decide, rfl,
    c8_generation (Difficulty.mk 3 3 1) [(1, 1)] game33 (by decide) (by decide)
      (by decide) rfl⟩

end Mines

namespace Mines

theorem processAll_inv (rows cols : Nat) (g0 : Grid) (start pos : Nat × Nat)
    (hcoh : coherent rows cols g0)
    (hpos : Reaches rows cols g0 start pos)
    (hposBlank : (g0 pos.1 pos.2).bombsInNeighbor = 0) :
    ∀ (ps : List (Nat × Nat)) (grid : Grid) (queue : List (Nat × Nat))
      (changed : List Tile),
      (∀ q ∈ ps, q ∈ getNeighborsPosition rows cols pos.1 pos.2) →
      Inv rows cols g0 start grid (pos :: queue) changed →
      (∀ q ∈ getNeighborsPosition rows cols pos.1 pos.2, q ∉ ps →
        openable g0 q → (grid q.1 q.2).isRevealed = true) →
      Inv rows cols g0 start (processAll ps grid queue changed).1
          (pos :: (processAll ps grid queue changed).2.1)
          (processAll ps grid queue changed).2.2 ∧
        (∀ q ∈ getNeighborsPosition rows cols pos.1 pos.2, openable g0 q →
          ((processAll ps grid queue changed).1 q.1 q.2).isRevealed = true) := by
  intro ps
  induction ps with
  | nil =>
    intro grid queue changed _ hinv hdone
    exact ⟨hinv, fun q hq hop => hdone q hq (List.not_mem_nil q) hop⟩
  | cons p ps ih =>
    intro grid queue changed hsub hinv hdone
    rw [processAll]
    split
    · rename_i hguard
      refine ih grid queue changed
        (fun q hq => hsub q (List.mem_cons_of_mem p hq)) hinv ?_
      intro q hq hqps hop
      by_cases hqp : q = p
      · subst hqp
        simp only [Bool.or_eq_true] at hguard
        have hfl := revOnly_fields (hinv.frame q)
        rcases hguard with (hB | hF) | hR
        · rw [hfl.2.2.2.1, hop.1] at hB
          cases hB
        · rw [hfl.2.2.2.2, hop.2.1] at hF
          cases hF
        · exact hR
      · refine hdone q hq ?_ hop
        intro hmem
        rcases List.mem_cons.mp hmem with h | h
        · exact hqp h
        · exact hqps h
    · rename_i hguard
      have hpn : p ∈ getNeighborsPosition rows cols pos.1 pos.2 :=
        hsub p (List.mem_cons_self p ps)
      have hpinb : inb rows cols p := inb_of_mem_getNeighborsPosition hpn
      simp only [Bool.or_eq_true, not_or, Bool.not_eq_true] at hguard
      obtain ⟨⟨hgB, hgF⟩, hgR⟩ := hguard
      have hgp : grid p.1 p.2 = g0 p.1 p.2 := by
        rcases hinv.frame p with h | h
        · exact h
        · rw [h] at hgR
          cases hgR
      have h0B : (g0 p.1 p.2).isBomb = false := by rw [← hgp]; exact hgB
      have h0F : (g0 p.1 p.2).isFlagged = false := by rw [← hgp]; exact hgF
      have h0R : (g0 p.1 p.2).isRevealed = false := by rw [← hgp]; exact hgR
      have hop0 : openable g0 p := ⟨h0B, h0F, h0R⟩
      have hrowp : (grid p.1 p.2).row = p.1 := by
        rw [hgp]; exact (hcoh p hpinb).1
      have hcolp : (grid p.1 p.2).col = p.2 := by
        rw [hgp]; exact (hcoh p hpinb).2
      have hpairp : ((grid p.1 p.2).row, (grid p.1 p.2).col) = p :=
        Prod.ext hrowp hcolp
      have hreachp : Reaches rows cols g0 start p :=
        Relation.ReflTransGen.tail hpos ⟨hposBlank, hpn, hop0⟩
      have htnew : ({ grid p.1 p.2 with isRevealed := true } : Tile) =
          { g0 p.1 p.2 with isRevealed := true } := by rw [hgp]
      have hframe2 : ∀ x : Nat × Nat, revOnly (g0 x.1 x.2)
          (setTile grid p.1 p.2 ({ grid p.1 p.2 with isRevealed := true }) x.1 x.2) := by
        intro x
        rw [setTile_apply]
        split
        · rename_i hx
          right
          rw [hx.1, hx.2, hgp]
        · exact hinv.frame x
      have hnew_iff : ∀ x : Nat × Nat,
          newly g0 (setTile grid p.1 p.2
            ({ grid p.1 p.2 with isRevealed := true })) x ↔
          (x = p ∨ newly g0 grid x) := by
        intro x
        unfold newly
        rw [setTile_apply]
        split
        · rename_i hx
          have hxp : x = p := Prod.ext hx.1 hx.2
          subst hxp
          constructor
          · intro _
            exact Or.inl rfl
          · intro _
            exact ⟨rfl, h0R⟩
        · rename_i hx
          constructor
          · exact fun h => Or.inr h
          · rintro (rfl | h)
            · exact absurd ⟨rfl, rfl⟩ hx
            · exact h
      have hrevmono : ∀ x : Nat × Nat, (grid x.1 x.2).isRevealed = true →
          (setTile grid p.1 p.2
            ({ grid p.1 p.2 with isRevealed := true }) x.1 x.2).isRevealed = true := by
        intro x hx
        rw [setTile_apply]
        split
        · rfl
        · exact hx
      have hnewp : newly g0 (setTile grid p.1 p.2
          ({ grid p.1 p.2 with isRevealed := true })) p :=
        (hnew_iff p).mpr (Or.inl rfl)
      have hsub2 : ∀ q ∈ ps, q ∈ getNeighborsPosition rows cols pos.1 pos.2 :=
        fun q hq => hsub q (List.mem_cons_of_mem p hq)
      have hrowt : ((g0 p.1 p.2).row, (g0 p.1 p.2).col) = p :=
        Prod.ext (hcoh p hpinb).1 (hcoh p hpinb).2
      have hchangedVal2 : ∀ t ∈ changed ++ [{ grid p.1 p.2 with isRevealed := true }],
          inb rows cols (t.row, t.col) ∧
            t = { g0 t.row t.col with isRevealed := true } := by
        intro t ht
        rcases List.mem_append.mp ht with h | h
        · exact hinv.changedVal t h
        · rw [List.mem_singleton] at h
          subst h
          rw [htnew]
          constructor
          · show inb rows cols ((g0 p.1 p.2).row, (g0 p.1 p.2).col)
            rw [hrowt]
            exact hpinb
          · show ({ g0 p.1 p.2 with isRevealed := true } : Tile) =
              { g0 (g0 p.1 p.2).row (g0 p.1 p.2).col with isRevealed := true }
            rw [(hcoh p hpinb).1, (hcoh p hpinb).2]
      have hchangedMem2 : ∀ x : Nat × Nat, inb rows cols x →
          ((∃ t ∈ changed ++ [{ grid p.1 p.2 with isRevealed := true }],
            t.row = x.1 ∧ t.col = x.2) ↔
          newly g0 (setTile grid p.1 p.2
            ({ grid p.1 p.2 with isRevealed := true })) x) := by
        intro x hxinb
        rw [hnew_iff x]
        constructor
        · rintro ⟨t, ht, hco⟩
          rcases List.mem_append.mp ht with h | h
          · exact Or.inr ((hinv.changedMem x hxinb).mp ⟨t, h, hco⟩)
          · rw [List.mem_singleton] at h
            subst h
            left
            have hx1 : x.1 = p.1 := by rw [← hco.1, hrowp]
            have hx2 : x.2 = p.2 := by rw [← hco.2, hcolp]
            exact Prod.ext hx1 hx2
        · rintro (rfl | hold)
          · exact ⟨{ grid x.1 x.2 with isRevealed := true },
              List.mem_append.mpr (Or.inr (List.mem_singleton.mpr rfl)),
              hrowp, hcolp⟩
          · obtain ⟨t, htmem, hco⟩ := (hinv.changedMem x hxinb).mpr hold
            exact ⟨t, List.mem_append.mpr (Or.inl htmem), hco⟩
      have hchangedNodup2 :
          ((changed ++ [{ grid p.1 p.2 with isRevealed := true }]).map
            (fun t : Tile => (t.row, t.col))).Nodup := by
        rw [List.map_append]
        rw [List.nodup_append]
        refine ⟨hinv.changedNodup, by simp, ?_⟩
        intro a ha hb
        simp only [List.map_cons, List.map_nil, List.mem_singleton] at hb
        subst hb
        rw [hpairp] at ha
        obtain ⟨t, htmem, hteq⟩ := List.mem_map.mp ha
        have hnewx : newly g0 grid p := by
          refine (hinv.changedMem p hpinb).mp ⟨t, htmem, ?_, ?_⟩
          · exact congrArg Prod.fst hteq
          · exact congrArg Prod.snd hteq
        rw [hnewx.1] at hgR
        cases hgR
      split
      · rename_i hbq
        have h0cnt : (g0 p.1 p.2).bombsInNeighbor = 0 := by
          rw [← hgp]
          exact beq_iff_eq.mp hbq
        refine ih _ _ _ hsub2 ?_ ?_
        · refine ⟨hframe2, ?_, ?_, ?_, ?_, ?_, ?_, hchangedVal2, hchangedMem2,
            hchangedNodup2⟩
          · intro x hx
            rcases (hnew_iff x).mp hx with rfl | h
            · exact hreachp
            · exact hinv.sound x h
          · exact (hnew_iff start).mpr (Or.inr hinv.startNew)
          · intro q hq
            rcases List.mem_cons.mp hq with rfl | hq2
            · exact hinv.queueInb q (List.mem_cons_self q _)
            · rcases List.mem_append.mp hq2 with h | h
              · exact hinv.queueInb q (List.mem_cons_of_mem pos h)
              · rw [List.mem_singleton] at h
                subst h
                rw [hpairp]
                exact hpinb
          · intro q hq
            rcases List.mem_cons.mp hq with rfl | hq2
            · exact (hnew_iff q).mpr
                (Or.inr (hinv.queueNew q (List.mem_cons_self q _)))
            · rcases List.mem_append.mp hq2 with h | h
              · exact (hnew_iff q).mpr
                  (Or.inr (hinv.queueNew q (List.mem_cons_of_mem pos h)))
              · rw [List.mem_singleton] at h
                subst h
                rw [hpairp]
                exact hnewp
          · intro q hq
            rcases List.mem_cons.mp hq with rfl | hq2
            · exact hinv.queueBlank q (List.mem_cons_self q _)
            · rcases List.mem_append.mp hq2 with h | h
              · exact hinv.queueBlank q (List.mem_cons_of_mem pos h)
              · rw [List.mem_singleton] at h
                subst h
                rw [hpairp]
                exact h0cnt
          · intro x hx hxblank hxnot q hq hop
            rcases (hnew_iff x).mp hx with rfl | hxold
            · exfalso
              apply hxnot
              refine List.mem_cons_of_mem pos (List.mem_append.mpr (Or.inr ?_))
              rw [List.mem_singleton]
              exact hpairp.symm
            · refine hrevmono q (hinv.closure x hxold hxblank ?_ q hq hop)
              intro hmem
              apply hxnot
              rcases List.mem_cons.mp hmem with rfl | h
              · exact List.mem_cons_self x _
              · exact List.mem_cons_of_mem pos (List.mem_append.mpr (Or.inl h))
        · intro q hq hqps hop
          by_cases hqp : q = p
          · subst hqp
            rw [setTile_same]
          · refine hrevmono q (hdone q hq ?_ hop)
            intro hmem
            rcases List.mem_cons.mp hmem with h | h
            · exact hqp h
            · exact hqps h
      · rename_i hbq
        refine ih _ _ _ hsub2 ?_ ?_
        · refine ⟨hframe2, ?_, ?_, ?_, ?_, ?_, ?_, hchangedVal2, hchangedMem2,
            hchangedNodup2⟩
          · intro x hx
            rcases (hnew_iff x).mp hx with rfl | h
            · exact hreachp
            · exact hinv.sound x h
          · exact (hnew_iff start).mpr (Or.inr hinv.startNew)
          · intro q hq
            exact hinv.queueInb q hq
          · intro q hq
            exact (hnew_iff q).mpr (Or.inr (hinv.queueNew q hq))
          · intro q hq
            exact hinv.queueBlank q hq
          · intro x hx hxblank hxnot q hq hop
            rcases (hnew_iff x).mp hx with rfl | hxold
            · exfalso
              apply hbq
              rw [hgp]
              rw [hxblank]
              rfl
            · exact hrevmono q (hinv.closure x hxold hxblank hxnot q hq hop)
        · intro q hq hqps hop
          by_cases hqp : q = p
          · subst hqp
            rw [setTile_same]
          · refine hrevmono q (hdone q hq ?_ hop)
            intro hmem
            rcases List.mem_cons.mp hmem with h | h
            · exact hqp h
            · exact hqps h

end Mines

namespace Mines

theorem unrevealedCount_le (rows cols : Nat) (g : Grid) :
    unrevealedCount rows cols g ≤ rows * cols := by
  unfold unrevealedCount
  calc ((Finset.range rows ×ˢ Finset.range cols).filter
        (fun p => (g p.1 p.2).isRevealed = false)).card
      ≤ (Finset.range rows ×ˢ Finset.range cols).card :=
        Finset.card_filter_le _ _
    _ = rows * cols := by
        rw [Finset.card_product, Finset.card_range, Finset.card_range]

theorem bfsFuel_inv (rows cols : Nat) (g0 : Grid) (start : Nat × Nat)
    (hcoh : coherent rows cols g0) :
    ∀ (fuel : Nat) (grid : Grid) (queue : List (Nat × Nat))
      (changed : List Tile),
      queue.length + unrevealedCount rows cols grid ≤ fuel →
      Inv rows cols g0 start grid queue changed →
      Inv rows cols g0 start (bfsFuel rows cols fuel grid queue changed).1 []
        (bfsFuel rows cols fuel grid queue changed).2 := by
  intro fuel
  induction fuel with
  | zero =>
    intro grid queue changed hfuel hinv
    cases queue with
    | nil => exact hinv
    | cons pos rest =>
      rw [List.length_cons] at hfuel
      omega
  | succ fuel ih =>
    intro grid queue changed hfuel hinv
    cases queue with
    | nil => exact hinv
    | cons pos rest =>
      rw [bfsFuel]
      have hposmem : pos ∈ pos :: rest := List.mem_cons_self pos rest
      have hposNew := hinv.queueNew pos hposmem
      have hposBlank := hinv.queueBlank pos hposmem
      have hpos : Reaches rows cols g0 start pos := hinv.sound pos hposNew
      have hstep := processAll_inv rows cols g0 start pos hcoh hpos hposBlank
        (getNeighborsPosition rows cols pos.1 pos.2) grid rest changed
        (fun q hq => hq) hinv
        (fun q hq hqnot _ => absurd hq hqnot)
      have hinv2 : Inv rows cols g0 start
          (processAll (getNeighborsPosition rows cols pos.1 pos.2) grid rest changed).1
          (processAll (getNeighborsPosition rows cols pos.1 pos.2) grid rest changed).2.1
          (processAll (getNeighborsPosition rows cols pos.1 pos.2) grid rest changed).2.2 := by
        refine ⟨hstep.1.frame, hstep.1.sound, hstep.1.startNew, ?_, ?_, ?_, ?_,
          hstep.1.changedVal, hstep.1.changedMem, hstep.1.changedNodup⟩
        · exact fun q hq => hstep.1.queueInb q (List.mem_cons_of_mem pos hq)
        · exact fun q hq => hstep.1.queueNew q (List.mem_cons_of_mem pos hq)
        · exact fun q hq => hstep.1.queueBlank q (List.mem_cons_of_mem pos hq)
        · intro x hnew hblank hnot q hq hop
          by_cases hxpos : x = pos
          · subst hxpos
            exact hstep.2 q hq hop
          · refine hstep.1.closure x hnew hblank ?_ q hq hop
            intro hmem
            rcases List.mem_cons.mp hmem with h | h
            · exact hxpos h
            · exact hnot h
      have hm := processAll_measure (getNeighborsPosition rows cols pos.1 pos.2)
        grid rest changed (fun q hq => inb_of_mem_getNeighborsPosition hq)
      refine ih _ _ _ ?_ hinv2
      rw [List.length_cons] at hfuel
      omega

/-- With an empty queue the invariant is saturated: the whole region the
specification describes is newly revealed. -/
theorem inv_complete {rows cols : Nat} {g0 : Grid} {start : Nat × Nat}
    {grid : Grid} {changed : List Tile}
    (hinv : Inv rows cols g0 start grid [] changed) :
    ∀ p : Nat × Nat, Reaches rows cols g0 start p → newly g0 grid p := by
  intro p h
  induction h with
  | refl => exact hinv.startNew
  | tail hab hbc ih =>
    rename_i b c'
    obtain ⟨hblank, hmem, hop⟩ := hbc
    have hrev := hinv.closure b ih hblank (List.not_mem_nil b) c' hmem hop
    exact ⟨hrev, hop.2.2⟩

theorem inv_revealed_iff {rows cols : Nat} {g0 : Grid} {start : Nat × Nat}
    {grid : Grid} {changed : List Tile}
    (hinv : Inv rows cols g0 start grid [] changed) (p : Nat × Nat) :
    (grid p.1 p.2).isRevealed = true ↔
      ((g0 p.1 p.2).isRevealed = true ∨ Reaches rows cols g0 start p) := by
  constructor
  · intro h
    rcases h0 : (g0 p.1 p.2).isRevealed with _ | _
    · exact Or.inr (hinv.sound p ⟨h, h0⟩)
    · exact Or.inl rfl
  · rintro (h | h)
    · exact revOnly_mono_rev (hinv.frame p) h
    · exact (inv_complete hinv p h).1

end Mines

namespace Mines

/-- C1: in state ONGOING, revealing an in-bounds, unrevealed, non-bomb,
blank tile marks revealed exactly the breadth-first region described by
`Reaches`: tiles reachable from the target through blank tiles, stepping
only onto in-bounds neighbors that are neither bombs, nor flagged, nor
already revealed; the returned list holds exactly the tiles whose
isRevealed changed, each exactly once with its updated value; flagged
tiles other than the target are never auto-revealed and bombs are never
revealed. -/
theorem c1_flood_fill (g : Game) (row col : Int) (r c : Nat)
    (hstate : g.state = State.ONGOING)
    (hcoh : coherent g.rows g.cols g.grid)
    (hr : pyIndex g.rows row = some r) (hc : pyIndex g.cols col = some c)
    (hbomb : (g.grid r c).isBomb = false)
    (hrev : (g.grid r c).isRevealed = false)
    (hblank : (g.grid r c).bombsInNeighbor = 0) :
    ∃ lst g2, reveal g row col = Except.ok (lst, g2) ∧
      (∀ p : Nat × Nat,
        ((g2.grid p.1 p.2).isRevealed = true ↔
          ((g.grid p.1 p.2).isRevealed = true ∨
            Reaches g.rows g.cols g.grid (r, c) p))) ∧
      (∀ p : Nat × Nat, inb g.rows g.cols p →
        ((∃ t ∈ lst, t.row = p.1 ∧ t.col = p.2) ↔
          ((g2.grid p.1 p.2).isRevealed = true ∧
            (g.grid p.1 p.2).isRevealed = false))) ∧
      (∀ t ∈ lst, inb g.rows g.cols (t.row, t.col) ∧
        t = { g.grid t.row t.col with isRevealed := true }) ∧
      (lst.map fun t : Tile => (t.row, t.col)).Nodup ∧
      (∀ p : Nat × Nat, p ≠ (r, c) → (g.grid p.1 p.2).isFlagged = true →
        (g2.grid p.1 p.2).isRevealed = (g.grid p.1 p.2).isRevealed) ∧
      (∀ p : Nat × Nat, (g.grid p.1 p.2).isBomb = true →
        (g2.grid p.1 p.2).isRevealed = (g.grid p.1 p.2).isRevealed) := by
  have hrin : r < g.rows := pyIndex_lt hr
  have hcin : c < g.cols := pyIndex_lt hc
  have hstartinb : inb g.rows g.cols (r, c) := ⟨hrin, hcin⟩
  have hrow0 : (g.grid r c).row = r := (hcoh (r, c) hstartinb).1
  have hcol0 : (g.grid r c).col = c := (hcoh (r, c) hstartinb).2
  have hpair : ((g.grid r c).row, (g.grid r c).col) = ((r, c) : Nat × Nat) :=
    Prod.ext hrow0 hcol0
  rw [reveal_blank hstate hr hc hbomb hrev hblank, hpair]
  have hstartnew : newly g.grid
      (setTile g.grid r c ({ g.grid r c with isRevealed := true })) (r, c) := by
    constructor
    · show (setTile g.grid r c _ r c).isRevealed = true
      rw [setTile_same]
    · exact hrev
  have hnewly0 : ∀ x : Nat × Nat,
      newly g.grid (setTile g.grid r c
        ({ g.grid r c with isRevealed := true })) x → x = (r, c) := by
    intro x hx
    unfold newly at hx
    rw [setTile_apply] at hx
    split at hx
    · rename_i h
      exact Prod.ext h.1 h.2
    · cases hx.1.symm.trans hx.2
  have hinv0 : Inv g.rows g.cols g.grid (r, c)
      (setTile g.grid r c ({ g.grid r c with isRevealed := true }))
      [(r, c)] [{ g.grid r c with isRevealed := true }] := by
    refine ⟨?_, ?_, hstartnew, ?_, ?_, ?_, ?_, ?_, ?_, by simp⟩
    · intro x
      rw [setTile_apply]
      split
      · rename_i hx
        right
        rw [hx.1, hx.2]
      · exact Or.inl rfl
    · intro x hx
      rw [hnewly0 x hx]
      exact Relation.ReflTransGen.refl
    · intro q hq
      rw [List.mem_singleton] at hq
      subst hq
      exact hstartinb
    · intro q hq
      rw [List.mem_singleton] at hq
      subst hq
      exact hstartnew
    · intro q hq
      rw [List.mem_singleton] at hq
      subst hq
      exact hblank
    · intro x hx _ hxnot _ _ _
      exfalso
      apply hxnot
      rw [List.mem_singleton]
      exact hnewly0 x hx
    · intro t ht
      rw [List.mem_singleton] at ht
      subst ht
      constructor
      · show inb g.rows g.cols ((g.grid r c).row, (g.grid r c).col)
        rw [hpair]
        exact hstartinb
      · show ({ g.grid r c with isRevealed := true } : Tile) =
          { g.grid (g.grid r c).row (g.grid r c).col with isRevealed := true }
        rw [hrow0, hcol0]
    · intro x _
      constructor
      · rintro ⟨t, ht, hco⟩
        rw [List.mem_singleton] at ht
        subst ht
        have hx : x = (r, c) := by
          refine (Prod.ext ?_ ?_).symm
          · rw [← hco.1]
            exact hrow0.symm
          · rw [← hco.2]
            exact hcol0.symm
        rw [hx]
        exact hstartnew
      · intro hx
        have h := hnewly0 x hx
        subst h
        exact ⟨{ g.grid r c with isRevealed := true },
          List.mem_singleton.mpr rfl, hrow0, hcol0⟩
  have hfuel : ([((r, c) : Nat × Nat)]).length +
      unrevealedCount g.rows g.cols
        (setTile g.grid r c ({ g.grid r c with isRevealed := true })) ≤
      g.rows * g.cols + 1 := by
    have h1 := unrevealedCount_le g.rows g.cols
      (setTile g.grid r c ({ g.grid r c with isRevealed := true }))
    calc ([((r, c) : Nat × Nat)]).length +
        unrevealedCount g.rows g.cols
          (setTile g.grid r c ({ g.grid r c with isRevealed := true }))
        = 1 + unrevealedCount g.rows g.cols
          (setTile g.grid r c ({ g.grid r c with isRevealed := true })) := by
          rw [List.length_singleton]
      _ ≤ 1 + g.rows * g.cols := Nat.add_le_add_left h1 1
      _ = g.rows * g.cols + 1 := Nat.add_comm _ _
  have hfinal := bfsFuel_inv g.rows g.cols g.grid (r, c) hcoh
    (g.rows * g.cols + 1)
    (setTile g.grid r c ({ g.grid r c with isRevealed := true }))
    [(r, c)] [{ g.grid r c with isRevealed := true }] hfuel hinv0
  refine ⟨_, _, rfl, ?_, ?_, ?_, ?_, ?_, ?_⟩
  · intro p
    exact inv_revealed_iff hfinal p
  · intro p hpinb
    exact hfinal.changedMem p hpinb
  · intro t ht
    exact hfinal.changedVal t ht
  · exact hfinal.changedNodup
  · intro p hne hflag
    rcases h0 : (g.grid p.1 p.2).isRevealed with _ | _
    · rcases hB : ((bfsFuel g.rows g.cols (g.rows * g.cols + 1)
          (setTile g.grid r c ({ g.grid r c with isRevealed := true }))
          [(r, c)] [{ g.grid r c with isRevealed := true }]).1 p.1 p.2).isRevealed
          with _ | _
      · rfl
      · exfalso
        rcases (inv_revealed_iff hfinal p).mp hB with h | h
        · rw [h0] at h
          cases h
        · cases h with
          | refl => exact hne rfl
          | tail hR hstep =>
            have := hstep.2.2.2.1
            rw [hflag] at this
            cases this
    · exact (inv_revealed_iff hfinal p).mpr (Or.inl h0)
  · intro p hpbomb
    rcases h0 : (g.grid p.1 p.2).isRevealed with _ | _
    · rcases hB : ((bfsFuel g.rows g.cols (g.rows * g.cols + 1)
          (setTile g.grid r c ({ g.grid r c with isRevealed := true }))
          [(r, c)] [{ g.grid r c with isRevealed := true }]).1 p.1 p.2).isRevealed
          with _ | _
      · rfl
      · exfalso
        rcases (inv_revealed_iff hfinal p).mp hB with h | h
        · rw [h0] at h
          cases h
        · cases h with
          | refl =>
            rw [hpbomb] at hbomb
            cases hbomb
          | tail hR hstep =>
            have := hstep.2.2.1
            rw [hpbomb] at this
            cases this
    · exact (inv_revealed_iff hfinal p).mpr (Or.inl h0)

end Mines

namespace Mines

/-- Evaluates `c1_flood_fill` on the 4-by-4 board with its bomb in the
corner, revealing the blank far corner. -/
theorem c1_flood_fill_witness :
    game44.state = State.ONGOING ∧
      coherent game44.rows game44.cols game44.grid ∧
      pyIndex game44.rows 3 = some 3 ∧ pyIndex game44.cols 3 = some 3 ∧
      (game44.grid 3 3).isBomb = false ∧
      (game44.grid 3 3).isRevealed = false ∧
      (game44.grid 3 3).bombsInNeighbor = 0 ∧
      (∃ lst g2, reveal game44 3 3 = Except.ok (lst, g2) ∧
        (∀ p : Nat × Nat,
          ((g2.grid p.1 p.2).isRevealed = true ↔
            ((game44.grid p.1 p.2).isRevealed = true ∨
              Reaches game44.rows game44.cols game44.grid (3, 3) p))) ∧
        (∀ p : Nat × Nat, inb game44.rows game44.cols p →
          ((∃ t ∈ lst, t.row = p.1 ∧ t.col = p.2) ↔
            ((g2.grid p.1 p.2).isRevealed = true ∧
              (game44.grid p.1 p.2).isRevealed = false))) ∧
        (∀ t ∈ lst, inb game44.rows game44.cols (t.row, t.col) ∧
          t = { game44.grid t.row t.col with isRevealed := true }) ∧
        (lst.map fun t : Tile => (t.row, t.col)).Nodup ∧
        (∀ p : Nat × Nat, p ≠ (3, 3) →
          (game44.grid p.1 p.2).isFlagged = true →
          (g2.grid p.1 p.2).isRevealed = (game44.grid p.1 p.2).isRevealed) ∧
        (∀ p : Nat × Nat, (game44.grid p.1 p.2).isBomb = true →
          (g2.grid p.1 p.2).isRevealed = (game44.grid p.1 p.2).isRevealed)) :=
  ⟨rfl, coherent_generateGrid 4 4 [(0, 0)], by decide, by decide, by decide,
    by decide, by decide,
    c1_flood_fill game44 3 3 3 3 rfl (coherent_generateGrid 4 4 [(0, 0)])
      (by decide) (by decide) (by decide) (by decide) (by decide)⟩

end Mines
